import Mathlib

/-!
# Verification of ranger's terminal inline-image protocol layer

Shallow embedding of `ranger/ext/img_display/` (Kitty graphics engine,
sixel cache engine, backend registry, iTerm2 header parser, urxvt backend)
together with proofs of the specification's testable properties.

Bytes are modelled as `Nat` (values < 256 at every concrete input),
byte strings as `List Nat`, Python's unbounded `int` as `Int`, and
Python's float division as exact division in `ℚ`.
-/

namespace RangerImg

/-! ## Kitty command formatter (`KittyImageDisplayer._format_cmd_str`)

The source generator yields framed byte strings
`protocol_start ++ central_blk ++ b',m=<flag>;' ++ <slice> ++ protocol_end`.
A fragment is modelled by its variable parts: the continuation flag `m`
and the payload slice it carries. -/

/-- `b'\x1b_G'`, the APC header of the kitty graphics protocol. -/
def protocolStart : List Nat := [0x1b, 0x5f, 0x47]

/-- `b'\x1b\\'`, the APC terminator of the kitty graphics protocol. -/
def protocolEnd : List Nat := [0x1b, 0x5c]

/-- One fragment yielded by `_format_cmd_str`: continuation flag `m`
and the payload slice between `;` and the terminator. -/
structure KittyFragment where
  m : Nat
  payload : List Nat
deriving Repr, DecidableEq

/-- The byte string a fragment is framed as on the wire
(`yield self.protocol_start + central_blk + b',m=_;' + blk + self.protocol_end`). -/
def KittyFragment.frame (centralBlk : List Nat) (fr : KittyFragment) : List Nat :=
  protocolStart ++ centralBlk ++ [0x2c, 0x6d, 0x3d, 0x30 + fr.m, 0x3b] ++
    fr.payload ++ protocolEnd

/-- `KittyImageDisplayer._format_cmd_str` with a non-None payload:
  while len(payload) > max_slice_len:
      payload_blk, payload = payload[:max_slice_len], payload[max_slice_len:]
      yield ... m=1 ... payload_blk ...
  yield ... m=0 ... payload ...
The Python loop diverges when `max_slice_len = 0`, so the slice limit
carries its positivity (the code only ever uses the default 2048). -/
def formatCmdStr (maxSliceLen : Nat) (hpos : 0 < maxSliceLen) (payload : List Nat) :
    List KittyFragment :=
  if payload.length > maxSliceLen then
    ⟨1, payload.take maxSliceLen⟩ ::
      formatCmdStr maxSliceLen hpos (payload.drop maxSliceLen)
  else
    [⟨0, payload⟩]
termination_by payload.length
decreasing_by simp only [List.length_drop]; omega

lemma formatCmdStr_of_le {maxSliceLen : Nat} (hpos : 0 < maxSliceLen)
    {payload : List Nat} (h : payload.length ≤ maxSliceLen) :
    formatCmdStr maxSliceLen hpos payload = [⟨0, payload⟩] := by
  rw [formatCmdStr]
  simp [Nat.not_lt.mpr h]

lemma formatCmdStr_of_gt {maxSliceLen : Nat} (hpos : 0 < maxSliceLen)
    {payload : List Nat} (h : payload.length > maxSliceLen) :
    formatCmdStr maxSliceLen hpos payload =
      ⟨1, payload.take maxSliceLen⟩ ::
        formatCmdStr maxSliceLen hpos (payload.drop maxSliceLen) := by
  rw [formatCmdStr]
  simp [h]

lemma formatCmdStr_ne_nil {maxSliceLen : Nat} (hpos : 0 < maxSliceLen)
    (payload : List Nat) : formatCmdStr maxSliceLen hpos payload ≠ [] := by
  by_cases h : payload.length > maxSliceLen
  · rw [formatCmdStr_of_gt hpos h]; simp
  · rw [formatCmdStr_of_le hpos (Nat.not_lt.mp h)]; simp

lemma formatCmdStr_length_aux {maxSliceLen : Nat} (hpos : 0 < maxSliceLen) :
    ∀ (n : Nat) (payload : List Nat), payload.length ≤ n →
      (formatCmdStr maxSliceLen hpos payload).length =
        max 1 ((payload.length + (maxSliceLen - 1)) / maxSliceLen) := by
  intro n
  induction n with
  | zero =>
    intro payload hlen
    rw [formatCmdStr_of_le hpos (by omega)]
    have h0 : payload.length = 0 := by omega
    have hz : (maxSliceLen - 1) / maxSliceLen = 0 :=
      Nat.div_eq_of_lt (by omega)
    simp [h0, hz]
  | succ n ih =>
    intro payload hlen
    by_cases h : payload.length > maxSliceLen
    · rw [formatCmdStr_of_gt hpos h]
      have hrec := ih (payload.drop maxSliceLen) (by simp; omega)
      simp only [List.length_cons, hrec, List.length_drop]
      have h1 : (payload.length - maxSliceLen + (maxSliceLen - 1)) / maxSliceLen
          = (payload.length - 1) / maxSliceLen := by
        congr 1; omega
      have h2 : 1 ≤ (payload.length - 1) / maxSliceLen :=
        (Nat.le_div_iff_mul_le hpos).mpr (by omega)
      have h3 : (payload.length + (maxSliceLen - 1)) / maxSliceLen
          = (payload.length - 1) / maxSliceLen + 1 := by
        have heq : payload.length + (maxSliceLen - 1)
            = (payload.length - 1) + maxSliceLen := by omega
        rw [heq, Nat.add_div_right _ hpos]
      rw [h1, h3]
      omega
    · rw [formatCmdStr_of_le hpos (Nat.not_lt.mp h)]
      have h4 : (payload.length + (maxSliceLen - 1)) / maxSliceLen < 2 :=
        Nat.div_lt_of_lt_mul (by omega)
      simp only [List.length_singleton]
      omega

/-- Fragment count of the chunker: `max 1 ⌈L / maxSliceLen⌉`
(the empty payload still yields one fragment). -/
lemma formatCmdStr_length {maxSliceLen : Nat} (hpos : 0 < maxSliceLen)
    (payload : List Nat) :
    (formatCmdStr maxSliceLen hpos payload).length =
      max 1 ((payload.length + (maxSliceLen - 1)) / maxSliceLen) :=
  formatCmdStr_length_aux hpos payload.length payload le_rfl

lemma formatCmdStr_payload_le_aux {maxSliceLen : Nat} (hpos : 0 < maxSliceLen) :
    ∀ (n : Nat) (payload : List Nat), payload.length ≤ n →
      ∀ fr ∈ formatCmdStr maxSliceLen hpos payload, fr.payload.length ≤ maxSliceLen := by
  intro n
  induction n with
  | zero =>
    intro payload hlen fr hfr
    rw [formatCmdStr_of_le hpos (by omega)] at hfr
    rcases List.mem_singleton.mp hfr with rfl
    simp; omega
  | succ n ih =>
    intro payload hlen
    by_cases h : payload.length > maxSliceLen
    · rw [formatCmdStr_of_gt hpos h]
      intro fr hfr
      rcases List.mem_cons.mp hfr with rfl | hfr
      · simp
      · exact ih (payload.drop maxSliceLen) (by simp; omega) fr hfr
    · rw [formatCmdStr_of_le hpos (Nat.not_lt.mp h)]
      intro fr hfr
      rcases List.mem_singleton.mp hfr with rfl
      exact Nat.not_lt.mp h

/-- Every fragment carries at most `maxSliceLen` payload bytes. -/
lemma formatCmdStr_payload_le {maxSliceLen : Nat} (hpos : 0 < maxSliceLen)
    (payload : List Nat) :
    ∀ fr ∈ formatCmdStr maxSliceLen hpos payload, fr.payload.length ≤ maxSliceLen :=
  formatCmdStr_payload_le_aux hpos payload.length payload le_rfl

lemma formatCmdStr_flags_aux {maxSliceLen : Nat} (hpos : 0 < maxSliceLen) :
    ∀ (n : Nat) (payload : List Nat), payload.length ≤ n →
      (formatCmdStr maxSliceLen hpos payload).map KittyFragment.m =
        List.replicate ((formatCmdStr maxSliceLen hpos payload).length - 1) 1 ++ [0] := by
  intro n
  induction n with
  | zero =>
    intro payload hlen
    rw [formatCmdStr_of_le hpos (by omega)]
    simp
  | succ n ih =>
    intro payload hlen
    by_cases h : payload.length > maxSliceLen
    · rw [formatCmdStr_of_gt hpos h]
      have hrec := ih (payload.drop maxSliceLen) (by simp; omega)
      have hne := formatCmdStr_ne_nil hpos (payload.drop maxSliceLen)
      have hlpos : 1 ≤ (formatCmdStr maxSliceLen hpos (payload.drop maxSliceLen)).length :=
        List.length_pos.mpr hne
      simp only [List.map_cons, hrec, List.length_cons]
      rw [show (formatCmdStr maxSliceLen hpos (payload.drop maxSliceLen)).length + 1 - 1
          = ((formatCmdStr maxSliceLen hpos (payload.drop maxSliceLen)).length - 1) + 1
        by omega]
      rw [List.replicate_succ]
      simp
    · rw [formatCmdStr_of_le hpos (Nat.not_lt.mp h)]
      simp

/-- The continuation flags, in emission order: `m=1` on every fragment
but the last, `m=0` on the last. -/
lemma formatCmdStr_flags {maxSliceLen : Nat} (hpos : 0 < maxSliceLen)
    (payload : List Nat) :
    (formatCmdStr maxSliceLen hpos payload).map KittyFragment.m =
      List.replicate ((formatCmdStr maxSliceLen hpos payload).length - 1) 1 ++ [0] :=
  formatCmdStr_flags_aux hpos payload.length payload le_rfl

lemma formatCmdStr_join_aux {maxSliceLen : Nat} (hpos : 0 < maxSliceLen) :
    ∀ (n : Nat) (payload : List Nat), payload.length ≤ n →
      ((formatCmdStr maxSliceLen hpos payload).map KittyFragment.payload).flatten = payload := by
  intro n
  induction n with
  | zero =>
    intro payload hlen
    rw [formatCmdStr_of_le hpos (by omega)]
    simp
  | succ n ih =>
    intro payload hlen
    by_cases h : payload.length > maxSliceLen
    · rw [formatCmdStr_of_gt hpos h]
      have hrec := ih (payload.drop maxSliceLen) (by simp; omega)
      simp only [List.map_cons, List.flatten_cons, hrec]
      exact List.take_append_drop maxSliceLen payload
    · rw [formatCmdStr_of_le hpos (Nat.not_lt.mp h)]
      simp

/-- Concatenating the payload slices in emission order reproduces the
original payload exactly. -/
lemma formatCmdStr_join {maxSliceLen : Nat} (hpos : 0 < maxSliceLen)
    (payload : List Nat) :
    ((formatCmdStr maxSliceLen hpos payload).map KittyFragment.payload).flatten = payload :=
  formatCmdStr_join_aux hpos payload.length payload le_rfl

/-- C1 counterexample: the claim states the formatter yields exactly
`⌈L/2048⌉` fragments for every payload; at the empty payload (`L = 0`)
the source's trailing `yield` still emits one `m=0` fragment, while
`⌈0/2048⌉ = 0`. -/
theorem kitty_chunk_count_claim_cex :
    ¬ ((formatCmdStr 2048 (by norm_num) ([] : List Nat)).length
        = (([] : List Nat).length + 2047) / 2048) := by
  rw [formatCmdStr_of_le (by norm_num) (by simp)]
  decide

/-- C1 (amended): with fragment limit 2048, the Kitty command formatter
yields `max 1 ⌈L/2048⌉` fragments (so exactly `⌈L/2048⌉` whenever `L ≥ 1`,
and a single empty fragment when `L = 0`); each fragment carries at most
2048 payload bytes; every fragment except the last is flagged `m=1` and
the last `m=0`; and concatenating the fragments' payload slices in
emission order reproduces the original payload exactly. -/
theorem kitty_chunking (payload : List Nat) :
    ((formatCmdStr 2048 (by norm_num) payload).length
        = max 1 ((payload.length + 2047) / 2048))
    ∧ (∀ fr ∈ formatCmdStr 2048 (by norm_num) payload, fr.payload.length ≤ 2048)
    ∧ ((formatCmdStr 2048 (by norm_num) payload).map KittyFragment.m
        = List.replicate ((formatCmdStr 2048 (by norm_num) payload).length - 1) 1 ++ [0])
    ∧ ((formatCmdStr 2048 (by norm_num) payload).map KittyFragment.payload).flatten
        = payload := by
  refine ⟨?_, formatCmdStr_payload_le (by norm_num) payload,
    formatCmdStr_flags (by norm_num) payload, formatCmdStr_join (by norm_num) payload⟩
  have h := @formatCmdStr_length 2048 (by norm_num) payload
  norm_num at h
  exact h

/-! ## Kitty negotiation (`KittyImageDisplayer._late_init`)

The response classification applied to the accumulated bytes read from
the terminal (the loop stops once a full DA1 reply has been seen):
  - `if not resp.startswith(self.protocol_start): raise ImgDisplayUnsupportedException`
  - `resp = resp[:resp.find(self.protocol_end) + 1]`
  - `if b'OK' in resp: self.stream = False` (temp-file mode)
  - `elif b'EBADF' in resp: self.stream = True` (stream mode)
  - `else: raise ImgDisplayUnsupportedException('unexpected response ...')` -/

/-- `b'OK'`. -/
def OKtoken : List Nat := [0x4f, 0x4b]

/-- `b'EBADF'`. -/
def EBADFtoken : List Nat := [0x45, 0x42, 0x41, 0x44, 0x46]

/-- Python's `needle in haystack` on byte strings. -/
def pyContains (needle : List Nat) : List Nat → Bool
  | [] => needle.isPrefixOf []
  | b :: rest => needle.isPrefixOf (b :: rest) || pyContains needle rest

/-- Python's `haystack.find(needle)`: lowest index of an occurrence,
`-1` when there is none. -/
def pyFind (needle : List Nat) : List Nat → Int
  | [] => if needle.isPrefixOf [] then 0 else -1
  | b :: rest =>
    if needle.isPrefixOf (b :: rest) then 0
    else if pyFind needle rest = -1 then -1 else pyFind needle rest + 1

lemma pyContains_iff (needle hay : List Nat) :
    pyContains needle hay = true ↔ needle <:+: hay := by
  induction hay with
  | nil =>
    simp [pyContains, List.isPrefixOf_iff_prefix, List.infix_nil, List.prefix_nil]
  | cons b rest ih =>
    simp [pyContains, List.isPrefixOf_iff_prefix, List.infix_cons_iff, ih]

/-- Transfer mode fixed by the negotiation: `self.stream = True` is
stream (inline payload) mode, `self.stream = False` is temp-file mode. -/
inductive KittyTransferMode
  | stream
  | file
deriving Repr, DecidableEq

/-- The two `ImgDisplayUnsupportedException` raises of `_late_init`'s
response handling. -/
inductive KittyInitError
  | unsupportedNoReply
  | unexpectedResponse
deriving Repr, DecidableEq

/-- Response classification of `_late_init` (see section comment). -/
def lateInitClassify (resp : List Nat) : Except KittyInitError KittyTransferMode :=
  if ¬ protocolStart.isPrefixOf resp then
    .error .unsupportedNoReply
  else
    let stripped := resp.take (pyFind protocolEnd resp + 1).toNat
    if pyContains OKtoken stripped then .ok .file
    else if pyContains EBADFtoken stripped then .ok .stream
    else .error .unexpectedResponse

/-- C2: if the accumulated response does not start with `ESC _G` the
backend raises the permanent `Unsupported` condition (so no mode is ever
selected and no further I/O happens); otherwise, on the response
stripped down to the graphics reply, an `OK` token selects temp-file
mode, an `EBADF` token (without `OK`) selects stream mode, and any other
reply is a protocol error. -/
theorem kitty_negotiation (resp : List Nat) :
    (¬ protocolStart <+: resp →
        lateInitClassify resp = .error .unsupportedNoReply)
    ∧ (protocolStart <+: resp →
        (OKtoken <:+: resp.take (pyFind protocolEnd resp + 1).toNat →
            lateInitClassify resp = .ok .file)
        ∧ (¬ OKtoken <:+: resp.take (pyFind protocolEnd resp + 1).toNat →
            EBADFtoken <:+: resp.take (pyFind protocolEnd resp + 1).toNat →
              lateInitClassify resp = .ok .stream)
        ∧ (¬ OKtoken <:+: resp.take (pyFind protocolEnd resp + 1).toNat →
            ¬ EBADFtoken <:+: resp.take (pyFind protocolEnd resp + 1).toNat →
              lateInitClassify resp = .error .unexpectedResponse)) := by
  constructor
  · intro h
    simp [lateInitClassify, List.isPrefixOf_iff_prefix, h]
  · intro h
    refine ⟨fun hok => ?_, fun hnok hbad => ?_, fun hnok hnbad => ?_⟩
    all_goals simp_all [lateInitClassify, List.isPrefixOf_iff_prefix, pyContains_iff]

/-- A concrete negotiation response: `ESC _G i=1;OK ESC \` followed by a
DA1 reply `ESC [ ? 6 2 c`. -/
def kittyRespSample : List Nat :=
  protocolStart ++ [0x69, 0x3d, 0x31, 0x3b] ++ OKtoken ++ protocolEnd ++
    [0x1b, 0x5b, 0x3f, 0x36, 0x32, 0x63]

theorem kitty_negotiation_witness :
    protocolStart <+: kittyRespSample
    ∧ OKtoken <:+: kittyRespSample.take (pyFind protocolEnd kittyRespSample + 1).toNat
    ∧ lateInitClassify kittyRespSample = .ok .file :=
  ⟨by decide, by decide,
    ((kitty_negotiation kittyRespSample).2 (by decide)).1 (by decide)⟩

/-! ## Kitty `image_id` dynamics

`draw` begins with `self.image_id += 1` and uses the new value as the
command's `i` key; `clear` ends with `self.image_id = max(0, self.image_id - 1)`;
`quit` runs `while self.image_id >= 1: self.clear(0, 0, 0, 0)`.
`image_id` is a Python `int`, modelled as `Int`. -/

/-- The two `image_id`-relevant operations of the Kitty backend. -/
inductive KittyOp
  | draw
  | clear
deriving Repr, DecidableEq

/-- Effect of one operation on `self.image_id`. -/
def kittyStep (imageId : Int) : KittyOp → Int
  | .draw => imageId + 1
  | .clear => max 0 (imageId - 1)

/-- `image_id` after a sequence of draw/clear calls. -/
def kittyRun (imageId : Int) : List KittyOp → Int :=
  List.foldl kittyStep imageId

/-- The `i` values sent by the successive `draw` calls of a sequence
(each `draw` sends `self.image_id` just after incrementing it). -/
def observedDrawIds (imageId : Int) : List KittyOp → List Int
  | [] => []
  | .draw :: rest => (imageId + 1) :: observedDrawIds (imageId + 1) rest
  | .clear :: rest => observedDrawIds (max 0 (imageId - 1)) rest

/-- C3 counterexample: in the session `draw, clear, draw` starting from
`image_id = 0`, the two draws both send `i = 1`, so the observed id
sequence is not strictly increasing once a clear intervenes. -/
theorem kitty_image_id_claim_cex :
    observedDrawIds 0 [.draw, .clear, .draw] = [1, 1]
    ∧ ¬ List.Chain' (· < ·) (observedDrawIds 0 [.draw, .clear, .draw]) := by
  constructor
  · rfl
  · rw [show observedDrawIds 0 [.draw, .clear, .draw] = [1, 1] from rfl]
    simp [List.chain'_cons]

lemma kittyRun_nonneg_step (imageId : Int) (h : 0 ≤ imageId) (op : KittyOp) :
    0 ≤ kittyStep imageId op := by
  cases op
  · simp only [kittyStep]; omega
  · simp only [kittyStep]; omega

/-- C3 (amended, part 1): with no intervening clear, successive draws
send strictly increasing ids. -/
lemma observedDrawIds_draws_chain (imageId : Int) (ops : List KittyOp)
    (h : ∀ op ∈ ops, op = KittyOp.draw) :
    List.Chain' (· < ·) (observedDrawIds imageId ops) := by
  induction ops generalizing imageId with
  | nil => simp [observedDrawIds]
  | cons op rest ih =>
    have hop : op = KittyOp.draw := h op (List.mem_cons_self op rest)
    subst hop
    have hrest : ∀ op ∈ rest, op = KittyOp.draw := fun op hmem =>
      h op (List.mem_cons_of_mem _ hmem)
    rw [observedDrawIds]
    cases rest with
    | nil => simp [observedDrawIds]
    | cons op' rest' =>
      have hop' : op' = KittyOp.draw := hrest op' (List.mem_cons_self op' rest')
      subst hop'
      refine List.chain'_cons.mpr ⟨?_, ih _ hrest⟩
      simp [observedDrawIds]

/-- C3 (amended, part 2): `image_id` stays non-negative under every
sequence of draw and clear calls. -/
lemma kittyRun_nonneg (imageId : Int) (h : 0 ≤ imageId) (ops : List KittyOp) :
    0 ≤ kittyRun imageId ops := by
  induction ops generalizing imageId with
  | nil => simpa [kittyRun]
  | cons op rest ih =>
    rw [kittyRun, List.foldl_cons]
    exact ih _ (kittyRun_nonneg_step imageId h op)

/-- C3 (amended): across any sequence of draw calls with no intervening
clear, the ids observed at successive draws are strictly increasing; and
starting from any non-negative `image_id` (the session starts at 0),
`image_id` never becomes negative after any sequence of draw and clear
calls — each clear decrements it with a floor at zero. -/
theorem kitty_image_id_amended (imageId : Int) (hpos : 0 ≤ imageId)
    (ops : List KittyOp) :
    ((∀ op ∈ ops, op = KittyOp.draw) →
        List.Chain' (· < ·) (observedDrawIds imageId ops))
    ∧ 0 ≤ kittyRun imageId ops
    ∧ ∀ i : Int, kittyStep i KittyOp.clear = max 0 (i - 1) :=
  ⟨observedDrawIds_draws_chain imageId ops,
    kittyRun_nonneg imageId hpos ops,
    fun _ => rfl⟩

theorem kitty_image_id_amended_witness :
    (0 : Int) ≤ 0
    ∧ List.Chain' (· < ·) (observedDrawIds 0 [.draw, .draw])
    ∧ 0 ≤ kittyRun 0 [.draw, .clear, .clear] :=
  ⟨le_rfl,
    (kitty_image_id_amended 0 le_rfl [.draw, .draw]).1 (by decide),
    (kitty_image_id_amended 0 le_rfl [.draw, .clear, .clear]).2.1⟩

/-- `KittyImageDisplayer.quit`: `while self.image_id >= 1: self.clear(...)`.
Returns the final `image_id` together with the number of clear calls
performed. -/
def kittyQuitRun (imageId : Int) : Int × Nat :=
  if 1 ≤ imageId then
    let next := kittyQuitRun (kittyStep imageId KittyOp.clear)
    (next.1, next.2 + 1)
  else
    (imageId, 0)
termination_by imageId.toNat
decreasing_by simp [kittyStep]; omega

/-- C9: for every non-negative tracked `image_id`, `quit` terminates:
each loop iteration's clear decreases `image_id` by exactly one (the
floor at zero is never hit from `image_id ≥ 1`), so the loop performs
exactly `image_id` clear calls and ends with `image_id = 0`. -/
theorem kitty_quit_terminates (imageId : Int) (h : 0 ≤ imageId) :
    kittyQuitRun imageId = (0, imageId.toNat) := by
  generalize hn : imageId.toNat = n
  induction n generalizing imageId with
  | zero =>
    rw [kittyQuitRun]
    have : ¬ 1 ≤ imageId := by omega
    simp [this]
    omega
  | succ n ih =>
    rw [kittyQuitRun]
    have h1 : 1 ≤ imageId := by omega
    have hstep : kittyStep imageId KittyOp.clear = imageId - 1 := by
      simp [kittyStep]; omega
    simp only [h1, if_pos, hstep]
    rw [ih (imageId - 1) (by omega) (by omega)]

theorem kitty_quit_terminates_witness :
    (0 : Int) ≤ 3 ∧ kittyQuitRun 3 = (0, 3) :=
  ⟨by norm_num, kitty_quit_terminates 3 (by norm_num)⟩

/-! ## Backend registry (`displayer.py`)

`IMAGE_DISPLAYER_REGISTRY = defaultdict(fallback_image_displayer)` where
`fallback_image_displayer` immediately raises
`ImgDisplayUnsupportedException`.  `get_image_displayer(key)` evaluates
`IMAGE_DISPLAYER_REGISTRY[key]` — for a missing key the `defaultdict`
calls its factory, which raises, so the subscript itself raises — and
only for a present key goes on to call the constructor.  The
registrations are the `@register_image_displayer(...)` decorators of the
repository's backend classes. -/

/-- The backend classes registered via `@register_image_displayer`. -/
inductive BackendClass
  | kitty        -- __init__.py  @register_image_displayer("kitty")
  | ueberzug     -- __init__.py  @register_image_displayer("ueberzug")
  | urxvt        -- urxvt.py     @register_image_displayer("urxvt")
  | urxvtFull    -- urxvt.py     @register_image_displayer("urxvt-full")
  | iterm2       -- iterm2.py    @register_image_displayer("iterm2")
  | sixel        -- sixel.py     @register_image_displayer("sixel")
  | terminology  -- terminology.py @register_image_displayer("terminology")
  | w3m          -- w3m.py       @register_image_displayer("w3m")
deriving Repr, DecidableEq

/-- `IMAGE_DISPLAYER_REGISTRY` after all registration decorators ran. -/
def registryLookup (key : String) : Option BackendClass :=
  if key = "kitty" then some .kitty
  else if key = "ueberzug" then some .ueberzug
  else if key = "urxvt" then some .urxvt
  else if key = "urxvt-full" then some .urxvtFull
  else if key = "iterm2" then some .iterm2
  else if key = "sixel" then some .sixel
  else if key = "terminology" then some .terminology
  else if key = "w3m" then some .w3m
  else none

/-- `Unsupported` condition: `ImgDisplayUnsupportedException`. -/
inductive DisplayerLookupError
  | unsupported
deriving Repr, DecidableEq

/-- `get_image_displayer(registry_key)`: subscripting the `defaultdict`
raises `ImgDisplayUnsupportedException` for a missing key (the default
factory raises instead of returning a class); for a present key the
class is instantiated and the instance returned. -/
def getImageDisplayer (key : String) : Except DisplayerLookupError BackendClass :=
  match registryLookup key with
  | some cls => .ok cls
  | none => .error .unsupported

/-- C4 counterexample: for a key not present in the registry, `get`
does not return any backend instance at all — the lookup itself raises
`Unsupported` (the `defaultdict`'s factory raises eagerly), contradicting
the claimed lazy failure at operation time on a returned instance. -/
theorem registry_lazy_failure_claim_cex :
    getImageDisplayer "no-such-protocol" = .error .unsupported
    ∧ ∀ b : BackendClass, getImageDisplayer "no-such-protocol" ≠ .ok b := by
  constructor
  · rfl
  · intro b h
    cases h

/-- C4 (amended): for every key not present in the backend registry,
`get(key)` fails eagerly with the `Unsupported` condition at lookup time
(the `defaultdict`'s default factory raises `ImgDisplayUnsupportedException`
inside the subscript), and never constructs or returns an instance; for
every registered key it returns an instance of the registered class. -/
theorem registry_unknown_key (key : String) :
    (registryLookup key = none →
        getImageDisplayer key = .error .unsupported)
    ∧ ∀ cls : BackendClass, registryLookup key = some cls →
        getImageDisplayer key = .ok cls := by
  constructor
  · intro h
    simp [getImageDisplayer, h]
  · intro cls h
    simp [getImageDisplayer, h]

theorem registry_unknown_key_witness :
    registryLookup "x11" = none
    ∧ getImageDisplayer "x11" = .error .unsupported
    ∧ registryLookup "kitty" = some .kitty
    ∧ getImageDisplayer "kitty" = .ok .kitty :=
  ⟨rfl, (registry_unknown_key "x11").1 rfl,
    rfl, (registry_unknown_key "kitty").2 .kitty rfl⟩

/-! ## Kitty draw scaling (`KittyImageDisplayer.draw`)

    box = (width * self.pix_row, height * self.pix_col)
    if image.width > box[0] or image.height > box[1]:
        scale = min(box[0] / image.width, box[1] / image.height)
        image = image.resize((int(scale * image.width), int(scale * image.height)), ...)

Python float division is modelled as exact division in `ℚ`; `int(...)`
of a non-negative value is truncation, i.e. the floor. -/

/-- Destination pixel box of a cell region. -/
def kittyBox (width height pixRow pixCol : Nat) : Nat × Nat :=
  (width * pixRow, height * pixCol)

/-- The scale factor used when resizing: `min(box[0]/w, box[1]/h)`. -/
def kittyScale (imgW imgH boxW boxH : Nat) : ℚ :=
  min ((boxW : ℚ) / imgW) ((boxH : ℚ) / imgH)

/-- Image dimensions after the draw path's conditional resize. -/
def kittyResize (imgW imgH boxW boxH : Nat) : Nat × Nat :=
  if imgW > boxW ∨ imgH > boxH then
    (⌊kittyScale imgW imgH boxW boxH * imgW⌋.toNat,
      ⌊kittyScale imgW imgH boxW boxH * imgH⌋.toNat)
  else
    (imgW, imgH)

lemma kittyScale_lt_one {imgW imgH boxW boxH : Nat}
    (hw : 0 < imgW) (hh : 0 < imgH) (h : imgW > boxW ∨ imgH > boxH) :
    kittyScale imgW imgH boxW boxH < 1 := by
  rcases h with h | h
  · calc kittyScale imgW imgH boxW boxH ≤ (boxW : ℚ) / imgW := min_le_left _ _
      _ < 1 := by
        rw [div_lt_one (by exact_mod_cast hw)]
        exact_mod_cast h
  · calc kittyScale imgW imgH boxW boxH ≤ (boxH : ℚ) / imgH := min_le_right _ _
      _ < 1 := by
        rw [div_lt_one (by exact_mod_cast hh)]
        exact_mod_cast h

lemma kittyScale_nonneg (imgW imgH boxW boxH : Nat) :
    0 ≤ kittyScale imgW imgH boxW boxH := by
  apply le_min <;> positivity

/-- C5: resizing is applied iff the source exceeds the destination pixel
box in some axis; when applied both dimensions are scaled by the single
factor `min(boxW/imgW, boxH/imgH)` and truncated; the output never
exceeds the input elementwise (no upscaling); and the aspect ratio is
preserved within the rounding of the two truncations:
`|w'·imgH − h'·imgW| < imgW + imgH`. -/
theorem kitty_scaling (imgW imgH boxW boxH : Nat)
    (hw : 0 < imgW) (hh : 0 < imgH) :
    (¬ (imgW > boxW ∨ imgH > boxH) →
        kittyResize imgW imgH boxW boxH = (imgW, imgH))
    ∧ ((imgW > boxW ∨ imgH > boxH) →
        kittyResize imgW imgH boxW boxH
          = (⌊kittyScale imgW imgH boxW boxH * imgW⌋.toNat,
              ⌊kittyScale imgW imgH boxW boxH * imgH⌋.toNat))
    ∧ (kittyResize imgW imgH boxW boxH).1 ≤ imgW
    ∧ (kittyResize imgW imgH boxW boxH).2 ≤ imgH
    ∧ |((kittyResize imgW imgH boxW boxH).1 : ℚ) * imgH
        - (kittyResize imgW imgH boxW boxH).2 * imgW|
        < imgW + imgH := by
  set s := kittyScale imgW imgH boxW boxH with hs
  by_cases h : imgW > boxW ∨ imgH > boxH
  · have hs1 : s < 1 := kittyScale_lt_one hw hh h
    have hs0 : 0 ≤ s := kittyScale_nonneg imgW imgH boxW boxH
    have hres : kittyResize imgW imgH boxW boxH
        = (⌊s * imgW⌋.toNat, ⌊s * imgH⌋.toNat) := by
      simp [kittyResize, h, hs]
    have hfwnn : (0 : ℤ) ≤ ⌊s * imgW⌋ := Int.floor_nonneg.mpr (by positivity)
    have hfhnn : (0 : ℤ) ≤ ⌊s * imgH⌋ := Int.floor_nonneg.mpr (by positivity)
    have hwle : ⌊s * imgW⌋.toNat ≤ imgW := by
      have h1 : (⌊s * imgW⌋ : ℚ) ≤ s * imgW := Int.floor_le _
      have h2 : s * imgW ≤ 1 * imgW := by
        apply mul_le_mul_of_nonneg_right (le_of_lt hs1) (by positivity)
      have h3 : (⌊s * imgW⌋ : ℚ) ≤ imgW := by linarith
      have h4 : ⌊s * imgW⌋ ≤ (imgW : ℤ) := by exact_mod_cast h3
      omega
    have hhle : ⌊s * imgH⌋.toNat ≤ imgH := by
      have h1 : (⌊s * imgH⌋ : ℚ) ≤ s * imgH := Int.floor_le _
      have h2 : s * imgH ≤ 1 * imgH := by
        apply mul_le_mul_of_nonneg_right (le_of_lt hs1) (by positivity)
      have h3 : (⌊s * imgH⌋ : ℚ) ≤ imgH := by linarith
      have h4 : ⌊s * imgH⌋ ≤ (imgH : ℤ) := by exact_mod_cast h3
      omega
    refine ⟨fun hc => absurd h hc, fun _ => hres, ?_, ?_, ?_⟩
    · rw [hres]; exact hwle
    · rw [hres]; exact hhle
    · rw [hres]
      have hwcast : ((⌊s * imgW⌋.toNat : ℚ)) = (⌊s * imgW⌋ : ℚ) := by
        exact_mod_cast Int.toNat_of_nonneg hfwnn
      have hhcast : ((⌊s * imgH⌋.toNat : ℚ)) = (⌊s * imgH⌋ : ℚ) := by
        exact_mod_cast Int.toNat_of_nonneg hfhnn
      have hwlo : s * imgW - 1 < (⌊s * imgW⌋ : ℚ) := Int.sub_one_lt_floor _
      have hwhi : (⌊s * imgW⌋ : ℚ) ≤ s * imgW := Int.floor_le _
      have hhlo : s * imgH - 1 < (⌊s * imgH⌋ : ℚ) := Int.sub_one_lt_floor _
      have hhhi : (⌊s * imgH⌋ : ℚ) ≤ s * imgH := Int.floor_le _
      have hWQ : (0 : ℚ) < imgW := by exact_mod_cast hw
      have hHQ : (0 : ℚ) < imgH := by exact_mod_cast hh
      rw [abs_lt]
      constructor
      · simp only [hwcast, hhcast]
        nlinarith [mul_le_mul_of_nonneg_right hwhi (le_of_lt hHQ),
          mul_lt_mul_of_pos_right hhlo hWQ]
      · simp only [hwcast, hhcast]
        nlinarith [mul_le_mul_of_nonneg_right hhhi (le_of_lt hWQ),
          mul_lt_mul_of_pos_right hwlo hHQ]
  · have hres : kittyResize imgW imgH boxW boxH = (imgW, imgH) := by
      simp [kittyResize, h]
    refine ⟨fun _ => hres, fun hc => absurd hc h, ?_, ?_, ?_⟩
    · rw [hres]
    · rw [hres]
    · rw [hres]
      have hWQ : (0 : ℚ) < imgW := by exact_mod_cast hw
      have hHQ : (0 : ℚ) < imgH := by exact_mod_cast hh
      show |(imgW : ℚ) * imgH - (imgH : ℚ) * imgW| < imgW + imgH
      rw [show (imgW : ℚ) * imgH - (imgH : ℚ) * imgW = 0 from by ring, abs_zero]
      positivity

/-- The spec's end-to-end example: a 4000×3000 image in an 800×1600
pixel box is scaled by `min(800/4000, 1600/3000) = 1/5` to 800×600. -/
theorem kitty_scaling_witness :
    0 < 4000 ∧ 0 < 3000
    ∧ (4000 > 800 ∨ 3000 > 1600)
    ∧ kittyResize 4000 3000 800 1600 = (800, 600)
    ∧ (kittyResize 4000 3000 800 1600).1 ≤ 4000
    ∧ (kittyResize 4000 3000 800 1600).2 ≤ 3000 := by
  refine ⟨by norm_num, by norm_num, by norm_num, ?_, ?_, ?_⟩
  · have h := ((kitty_scaling 4000 3000 800 1600 (by norm_num) (by norm_num)).2.1
      (by norm_num))
    rw [h]
    norm_num [kittyScale]
    decide
  · exact (kitty_scaling 4000 3000 800 1600 (by norm_num) (by norm_num)).2.2.1
  · exact (kitty_scaling 4000 3000 800 1600 (by norm_num) (by norm_num)).2.2.2.1

/-! ## Sixel cache engine (`sixel.py`)

`_CacheableSixelImage = namedtuple(..., ("width", "height", "inode"))`;
`SixelImageDisplayer._sixel_cache` stats the path, looks the key up in
`self.cache`, and on a miss runs the external converter into a spool
file, failing with `ImageDisplayError` on a non-zero exit status or a
zero-byte result, caching the mapped bytes only on success.
`_clear_cache(path)` keeps, when the path still exists, exactly the
entries whose inode differs from the path's current inode.
The filesystem and the converter are modelled as oracle functions. -/

/-- `_CacheableSixelImage`: the cache key. -/
structure SixelCacheKey where
  width : Nat
  height : Nat
  inode : Nat
deriving Repr, DecidableEq

/-- `self.cache`, a dict in insertion order; the entry is the rendered
sixel byte buffer (`_CachedSixelImage.image`). -/
abbrev SixelCache := List (SixelCacheKey × List Nat)

/-- Python `cacheable in self.cache` / `self.cache[cacheable]`. -/
def cacheLookup (cache : SixelCache) (key : SixelCacheKey) : Option (List Nat) :=
  (cache.find? (fun e => e.1 == key)).map Prod.snd

/-- The external world of the sixel engine: `os.stat(path).st_ino`
(`none` when the path does not exist) and the ImageMagick invocation
(`.error` for `CalledProcessError`/`FileNotFoundError`, otherwise the
bytes it wrote to the spool file). Both fixed for the scope of a claim:
the filesystem does not change between the compared calls. -/
structure SixelFS where
  stat : String → Option Nat
  convert : String → Nat → Nat → Except Unit (List Nat)

/-- Failures of a sixel draw: `os.stat` raising `OSError` on a missing
path, and the two `ImageDisplayError` raises of `_sixel_cache`. -/
inductive SixelDrawError
  | osError
  | magickFailed
  | emptyOutput
deriving Repr, DecidableEq

/-- Result of one `_sixel_cache` call: the cache afterwards, whether the
external converter was invoked, and the returned bytes or the raised
error. -/
structure SixelOutcome where
  cache : SixelCache
  invoked : Bool
  result : Except SixelDrawError (List Nat)
deriving Repr

/-- `SixelImageDisplayer._sixel_cache(path, width, height)`. -/
def sixelCacheOp (fs : SixelFS) (fontWidth fontHeight : Nat) (cache : SixelCache)
    (path : String) (width height : Nat) : SixelOutcome :=
  match fs.stat path with
  | none => ⟨cache, false, .error .osError⟩
  | some ino =>
    let cacheable : SixelCacheKey := ⟨width, height, ino⟩
    match cacheLookup cache cacheable with
    | some image => ⟨cache, false, .ok image⟩
    | none =>
      match fs.convert path (fontWidth * width) (fontHeight * height) with
      | .error _ => ⟨cache, true, .error .magickFailed⟩
      | .ok output =>
        if output.length = 0 then ⟨cache, true, .error .emptyOutput⟩
        else ⟨cache ++ [(cacheable, output)], true, .ok output⟩

/-- `SixelImageDisplayer._clear_cache(path)`. -/
def sixelClearCache (fs : SixelFS) (cache : SixelCache) (path : String) : SixelCache :=
  match fs.stat path with
  | none => cache
  | some ino => cache.filter (fun ce => ce.1.inode != ino)

lemma cacheLookup_append_self (cache : SixelCache) (key : SixelCacheKey)
    (img : List Nat) (h : cacheLookup cache key = none) :
    cacheLookup (cache ++ [(key, img)]) key = some img := by
  unfold cacheLookup at h ⊢
  rw [List.find?_append]
  simp only [Option.map_eq_none'] at h  -- find? cache = none
  cases hfind : List.find? (fun e => e.1 == key) cache with
  | none => simp [List.find?]
  | some e => rw [hfind] at h; simp at h

/-- Concrete world for the counterexample: one path `"f"` with inode 5,
a cache holding two differently-sized renderings of that same inode. -/
def sixelFSCex : SixelFS where
  stat := fun p => if p = "f" then some 5 else none
  convert := fun _ _ _ => .ok [1]

def sixelCacheCex : SixelCache :=
  [(⟨1, 1, 5⟩, [1]), (⟨2, 2, 5⟩, [2])]

/-- C6 counterexample: invalidating by a path whose current inode (5)
matches a cached entry evicts EVERY entry with that inode, not "exactly
that one": both cached renderings of inode 5 are removed. -/
theorem sixel_invalidate_claim_cex :
    (⟨1, 1, 5⟩, [1]) ∈ sixelCacheCex
    ∧ (⟨2, 2, 5⟩, [2]) ∈ sixelCacheCex
    ∧ sixelClearCache sixelFSCex sixelCacheCex "f" = [] := by
  refine ⟨by simp [sixelCacheCex], by simp [sixelCacheCex], ?_⟩
  rfl

/-- C6 (amended): two draws with the same `(width, height, inode)` key
invoke the external converter exactly once — a successful miss converts,
and the repeat is a cache hit returning the same bytes with no
conversion; invalidating by a path that exists removes exactly the
entries whose inode matches the path's current inode (every such entry,
and no entry with a different inode); invalidating by a path that no
longer exists evicts nothing. -/
theorem sixel_cache_amended (fs : SixelFS) (fontW fontH : Nat)
    (cache : SixelCache) (path : String) (width height : Nat) :
    (∀ image : List Nat,
      (sixelCacheOp fs fontW fontH cache path width height).invoked = true →
      (sixelCacheOp fs fontW fontH cache path width height).result = .ok image →
        sixelCacheOp fs fontW fontH
            (sixelCacheOp fs fontW fontH cache path width height).cache
            path width height
          = ⟨(sixelCacheOp fs fontW fontH cache path width height).cache,
              false, .ok image⟩)
    ∧ (∀ ino entry, fs.stat path = some ino →
        (entry ∈ sixelClearCache fs cache path
          ↔ entry ∈ cache ∧ entry.1.inode ≠ ino))
    ∧ (fs.stat path = none → sixelClearCache fs cache path = cache) := by
  refine ⟨?_, ?_, ?_⟩
  · intro image hinv hres
    cases hstat : fs.stat path with
    | none => simp [sixelCacheOp, hstat] at hinv
    | some ino =>
      cases hluk : cacheLookup cache ⟨width, height, ino⟩ with
      | some img => simp [sixelCacheOp, hstat, hluk] at hinv
      | none =>
        cases hconv : fs.convert path (fontW * width) (fontH * height) with
        | error e => simp [sixelCacheOp, hstat, hluk, hconv] at hres
        | ok output =>
          by_cases hlen : output.length = 0
          · simp [sixelCacheOp, hstat, hluk, hconv, hlen] at hres
          · have hout : sixelCacheOp fs fontW fontH cache path width height
                = ⟨cache ++ [(⟨width, height, ino⟩, output)], true, .ok output⟩ := by
              simp [sixelCacheOp, hstat, hluk, hconv, hlen]
            rw [hout] at hres
            have himg : image = output := by
              have := hres
              simp only [Except.ok.injEq] at this
              exact this.symm
            subst himg
            rw [hout]
            have hl := cacheLookup_append_self cache ⟨width, height, ino⟩ image hluk
            simp only [sixelCacheOp, hstat, hl]
  · intro ino entry hstat
    simp [sixelClearCache, hstat, List.mem_filter, bne_iff_ne]
  · intro hstat
    simp [sixelClearCache, hstat]

/-- Concrete world for the C6 witness: inode 5, converter yields `[9]`. -/
def sixelFSHit : SixelFS where
  stat := fun p => if p = "f" then some 5 else none
  convert := fun _ _ _ => .ok [9]

theorem sixel_cache_amended_witness :
    (sixelCacheOp sixelFSHit 8 16 [] "f" 10 4).invoked = true
    ∧ (sixelCacheOp sixelFSHit 8 16 [] "f" 10 4).result = .ok [9]
    ∧ sixelCacheOp sixelFSHit 8 16
        (sixelCacheOp sixelFSHit 8 16 [] "f" 10 4).cache "f" 10 4
      = ⟨(sixelCacheOp sixelFSHit 8 16 [] "f" 10 4).cache, false, .ok [9]⟩
    ∧ sixelFSHit.stat "gone" = none
    ∧ sixelClearCache sixelFSHit sixelCacheCex "gone" = sixelCacheCex :=
  ⟨rfl, rfl,
    (sixel_cache_amended sixelFSHit 8 16 [] "f" 10 4).1 [9] rfl rfl,
    rfl,
    (sixel_cache_amended sixelFSHit 8 16 sixelCacheCex "gone" 10 4).2.2 rfl⟩

/-- C7: on a cache miss whose conversion fails — non-zero converter exit
status or a zero-byte output — the draw fails with `ImageDisplayError`,
the cache is left unchanged (no partial entry for the key is stored),
and a repeated draw of the same key attempts conversion again. -/
theorem sixel_conversion_failure (fs : SixelFS) (fontW fontH : Nat)
    (cache : SixelCache) (path : String) (width height : Nat) (ino : Nat)
    (hstat : fs.stat path = some ino)
    (hmiss : cacheLookup cache ⟨width, height, ino⟩ = none)
    (hfail : fs.convert path (fontW * width) (fontH * height) = .error ()
        ∨ fs.convert path (fontW * width) (fontH * height) = .ok []) :
    ((sixelCacheOp fs fontW fontH cache path width height).result
          = .error .magickFailed
      ∨ (sixelCacheOp fs fontW fontH cache path width height).result
          = .error .emptyOutput)
    ∧ (sixelCacheOp fs fontW fontH cache path width height).cache = cache
    ∧ (sixelCacheOp fs fontW fontH cache path width height).invoked = true
    ∧ (sixelCacheOp fs fontW fontH
          (sixelCacheOp fs fontW fontH cache path width height).cache
          path width height).invoked = true := by
  rcases hfail with hconv | hconv
  · have hout : sixelCacheOp fs fontW fontH cache path width height
        = ⟨cache, true, .error .magickFailed⟩ := by
      simp [sixelCacheOp, hstat, hmiss, hconv]
    rw [hout]
    refine ⟨Or.inl rfl, rfl, rfl, ?_⟩
    simp [sixelCacheOp, hstat, hmiss, hconv]
  · have hout : sixelCacheOp fs fontW fontH cache path width height
        = ⟨cache, true, .error .emptyOutput⟩ := by
      simp [sixelCacheOp, hstat, hmiss, hconv]
    rw [hout]
    refine ⟨Or.inr rfl, rfl, rfl, ?_⟩
    simp [sixelCacheOp, hstat, hmiss, hconv]

/-- Concrete failing world for the C7 witness: the converter always
exits non-zero. -/
def sixelFSFail : SixelFS where
  stat := fun _ => some 7
  convert := fun _ _ _ => .error ()

theorem sixel_conversion_failure_witness :
    sixelFSFail.stat "img" = some 7
    ∧ cacheLookup [] ⟨10, 4, 7⟩ = none
    ∧ ((sixelCacheOp sixelFSFail 8 16 [] "img" 10 4).result
          = .error .magickFailed
        ∨ (sixelCacheOp sixelFSFail 8 16 [] "img" 10 4).result
          = .error .emptyOutput)
    ∧ (sixelCacheOp sixelFSFail 8 16 [] "img" 10 4).cache = [] :=
  ⟨rfl, rfl,
    (sixel_conversion_failure sixelFSFail 8 16 [] "img" 10 4 7 rfl rfl
      (Or.inl rfl)).1,
    (sixel_conversion_failure sixelFSFail 8 16 [] "img" 10 4 7 rfl rfl
      (Or.inl rfl)).2.1⟩

/-! ## iTerm2 header-size parser (`iterm2.py`)

`ITerm2ImageDisplayer.imghdr_what` inspects the first 32 bytes;
`_get_image_dimensions` reads the first 24 bytes and decodes per type,
scanning marker segments for JPEG.  A file is a byte list; Python's
`header[a:b]` is `pySlice`, `struct.unpack('>i', ...)` is a signed
big-endian 32-bit decode.  Exceptions the code does not catch
(`TypeError` from `ord(b'')`, `struct.error` from a short unpack, and —
impossible in the source's real runs — loop-fuel exhaustion) surface as
`.error`. -/

/-- Python `bytes[a:b]`. -/
def pySlice (l : List Nat) (a b : Nat) : List Nat := (l.take b).drop a

/-- Big-endian unsigned value of a byte string. -/
def unpackBE (bs : List Nat) : Nat := bs.foldl (fun acc b => acc * 256 + b) 0

/-- `struct.unpack('>i', bs)`: signed big-endian 32-bit integer. -/
def unpackBEInt32 (bs : List Nat) : Int :=
  if unpackBE bs < 2 ^ 31 then (unpackBE bs : Int) else (unpackBE bs : Int) - 2 ^ 32

/-- One `'<H'` field of `struct.unpack('<HH', ...)`: little-endian
unsigned 16-bit integer (both call sites pass exactly two bytes). -/
def unpackLEU16 (bs : List Nat) : Nat :=
  match bs with
  | [b0, b1] => b0 + 256 * b1
  | _ => 0

/-- The image types `imghdr_what` distinguishes. -/
inductive ImgHeaderType
  | jpeg
  | png
  | gif
deriving Repr, DecidableEq

/-- `b'\211PNG\r\n\032\n'`. -/
def pngSignature : List Nat := [137, 80, 78, 71, 13, 10, 26, 10]

/-- The check chain of `imghdr_what` over the 32-byte header. -/
def imghdrCheck (header : List Nat) : Option ImgHeaderType :=
  -- header[6:10] in (b'JFIF', b'Exif')
  if pySlice header 6 10 = [0x4a, 0x46, 0x49, 0x46]
      ∨ pySlice header 6 10 = [0x45, 0x78, 0x69, 0x66] then some .jpeg
  -- header[:4] == b'\xff\xd8\xff\xdb'
  else if pySlice header 0 4 = [0xff, 0xd8, 0xff, 0xdb] then some .jpeg
  -- header.startswith(b'\211PNG\r\n\032\n')
  else if pngSignature.isPrefixOf header then some .png
  -- header[:6] in (b'GIF87a', b'GIF89a')
  else if pySlice header 0 6 = [0x47, 0x49, 0x46, 0x38, 0x37, 0x61]
      ∨ pySlice header 0 6 = [0x47, 0x49, 0x46, 0x38, 0x39, 0x61] then some .gif
  else none

/-- `ITerm2ImageDisplayer.imghdr_what(path)`: `header = img_file.read(32)`. -/
def imghdrWhat (file : List Nat) : Option ImgHeaderType :=
  imghdrCheck (file.take 32)

/-- Exceptions that escape `_get_image_dimensions` (the JPEG branch only
catches `OSError`). `nonTermination` is the fuel guard of the marker
scan, unreachable at the fuel `getImageDimensions` supplies. -/
inductive PyExn
  | typeError
  | structError
  | nonTermination
deriving Repr, DecidableEq

/-- `byte = file_handle.read(1); while ord(byte) == 0xff: byte = file_handle.read(1)`
starting after the read at `pos`; returns the marker type byte and the
position after it, `typeError` when `ord` is applied to an empty read. -/
def jpegReadMarkerType (file : List Nat) : Nat → Nat → Except PyExn (Nat × Nat)
  | 0, _ => .error .nonTermination
  | fuel + 1, pos =>
    match (file.drop pos).take 1 with
    | [] => .error .typeError
    | b :: _ =>
      if b = 0xff then jpegReadMarkerType file fuel (pos + 1)
      else .ok (b, pos + 1)

/-- The marker-scan loop of the JPEG branch
(`while not 0xc0 <= ftype <= 0xcf:` … then `seek(1, 1)` and
`struct.unpack('>HH', read(4))`), with `pos` the stream position,
`size` the previous segment length minus two, `ftype` the last marker
type. A `seek` to a negative position raises `OSError`, which the code
catches into `(0, 0)`. -/
def jpegScanLoop (file : List Nat) : Nat → Nat → Int → Nat → Except PyExn (Int × Int)
  | 0, _, _, _ => .error .nonTermination
  | fuel + 1, pos, size, ftype =>
    if 0xc0 ≤ ftype ∧ ftype ≤ 0xcf then
      match (file.drop (pos + 1)).take 4 with
      | [h0, h1, w0, w1] => .ok (((w0 * 256 + w1 : Nat) : Int), ((h0 * 256 + h1 : Nat) : Int))
      | _ => .error .structError
    else
      if (pos : Int) + size < 0 then .ok (0, 0)
      else
        match jpegReadMarkerType file (fuel + 1) ((pos : Int) + size).toNat with
        | .error e => .error e
        | .ok (ft, pos2) =>
          match (file.drop pos2).take 2 with
          | [b0, b1] => jpegScanLoop file fuel (pos2 + 2) ((b0 * 256 + b1 : Nat) - 2) ft
          | _ => .error .structError

/-- The JPEG branch: `file_handle.seek(0); size = 2; ftype = 0; while ...`. -/
def jpegScan (file : List Nat) : Except PyExn (Int × Int) :=
  jpegScanLoop file (file.length + 2) 0 2 0

/-- `ITerm2ImageDisplayer._get_image_dimensions(path)`:
`file_header = file_handle.read(24)`, classify via `imghdr_what`,
return `(0, 0)` when fewer than 24 bytes were read, else decode
according to the type (`(0, 0)` for an unrecognized type or a PNG whose
bytes 4–8 are not the signature tail `0x0d0a1a0a`). -/
def getImageDimensions (file : List Nat) : Except PyExn (Int × Int) :=
  if (file.take 24).length ≠ 24 then .ok (0, 0)
  else
    match imghdrWhat file with
    | some .png =>
      if unpackBEInt32 (pySlice (file.take 24) 4 8) ≠ 0x0d0a1a0a then .ok (0, 0)
      else .ok (unpackBEInt32 (pySlice (file.take 24) 16 24 |>.take 4),
          unpackBEInt32 (pySlice (file.take 24) 16 24 |>.drop 4))
    | some .gif =>
      .ok ((unpackLEU16 (pySlice (file.take 24) 6 10 |>.take 2) : Int),
          (unpackLEU16 (pySlice (file.take 24) 6 10 |>.drop 2) : Int))
    | some .jpeg => jpegScan file
    | none => .ok (0, 0)

/-- The 24 header bytes of a well-formed PNG declaring size 640×480:
signature, IHDR chunk length 13, `"IHDR"`, width 640, height 480. -/
def png640x480 : List Nat :=
  pngSignature ++ [0, 0, 0, 13] ++ [0x49, 0x48, 0x44, 0x52] ++
    [0, 0, 2, 128] ++ [0, 0, 1, 224]

lemma imghdrCheck_png640_append (rest : List Nat) :
    imghdrCheck (png640x480 ++ rest) = some ImgHeaderType.png := by
  have h10 : (png640x480 ++ rest).take 10 = png640x480.take 10 :=
    List.take_append_of_le_length (by decide)
  have h4 : (png640x480 ++ rest).take 4 = png640x480.take 4 :=
    List.take_append_of_le_length (by decide)
  have h6 : (png640x480 ++ rest).take 6 = png640x480.take 6 :=
    List.take_append_of_le_length (by decide)
  have hpre : pngSignature.isPrefixOf (png640x480 ++ rest) = true := by
    rw [List.isPrefixOf_iff_prefix]
    exact (show pngSignature <+: png640x480 by decide).trans
      (List.prefix_append _ _)
  unfold imghdrCheck pySlice
  rw [h10, h4, h6, hpre]
  decide

lemma imghdrWhat_of_take24_png (file : List Nat) (h : file.take 24 = png640x480) :
    imghdrWhat file = some ImgHeaderType.png := by
  unfold imghdrWhat
  rw [show (32 : Nat) = 24 + 8 from rfl, List.take_add, h]
  exact imghdrCheck_png640_append _

/-- C8: `_get_image_dimensions` returns exactly `(640, 480)` for every
file whose first 24 bytes form a well-formed PNG header declaring size
640×480; `(0, 0)` for every 10-byte file; and more generally `(0, 0)`
for every truncated header (fewer than 24 bytes) and for every header
`imghdr_what` does not recognize. -/
theorem iterm2_get_image_dimensions (file : List Nat) :
    (file.take 24 = png640x480 → getImageDimensions file = .ok (640, 480))
    ∧ (file.length = 10 → getImageDimensions file = .ok (0, 0))
    ∧ (file.length < 24 → getImageDimensions file = .ok (0, 0))
    ∧ (imghdrWhat file = none → getImageDimensions file = .ok (0, 0)) := by
  have hshort : file.length < 24 → getImageDimensions file = .ok (0, 0) := by
    intro h
    have hlen : (file.take 24).length ≠ 24 := by
      simp only [List.length_take]
      omega
    unfold getImageDimensions
    rw [if_pos hlen]
  refine ⟨?_, fun h => hshort (by omega), hshort, ?_⟩
  · intro h
    have hlen : (file.take 24).length = 24 := by rw [h]; decide
    have htype := imghdrWhat_of_take24_png file h
    unfold getImageDimensions
    rw [if_neg (by omega), htype, h]
    rfl
  · intro h
    by_cases hlen : (file.take 24).length ≠ 24
    · unfold getImageDimensions
      rw [if_pos hlen]
    · unfold getImageDimensions
      rw [if_neg hlen, h]

theorem iterm2_get_image_dimensions_witness :
    png640x480.take 24 = png640x480
    ∧ getImageDimensions png640x480 = .ok (640, 480)
    ∧ ([0, 1, 2, 3, 4, 5, 6, 7, 8, 9] : List Nat).length = 10
    ∧ getImageDimensions [0, 1, 2, 3, 4, 5, 6, 7, 8, 9] = .ok (0, 0) :=
  ⟨by decide,
    (iterm2_get_image_dimensions png640x480).1 (by decide),
    rfl,
    (iterm2_get_image_dimensions [0, 1, 2, 3, 4, 5, 6, 7, 8, 9]).2.1 rfl⟩

/-! ## urxvt backend (`urxvt.py`)

`URXVTImageDisplayer` writes `display_protocol + path +
";{w}x{h}+{x}+{y}:op=keep-aspect" + close_protocol`, where the
percentages come from `_get_sizes`/`_get_offsets` (pager visibility and
`column_ratios` from settings) and never from the draw arguments;
`clear` writes `display_protocol + ";100x100+1000+1000" + close_protocol`.
Python 3 `int((100 * preview_column_ratio) / total_columns_ratio)` — a
float division then truncation — is modelled as exact rational-valued
truncating division (`Int.tdiv`); `column_ratios[-1]` on an empty list
raises `IndexError`, modelled as `none`. -/

/-- Ambient inputs of the urxvt backend: `TERM` starting with
`screen`/`tmux` (fixed at construction), and the two host lookups used
by `_get_sizes`/`_get_offsets`. -/
structure UrxvtEnv where
  termMultiplexer : Bool
  pagerVisible : Bool
  columnRatios : List Int

/-- `self.display_protocol` after `__init__`. -/
def urxvtDisplayProtocol (env : UrxvtEnv) : String :=
  (if env.termMultiplexer then "\x1b" ++ "Ptmux;" ++ "\x1b" ++ "\x1b" else "\x1b")
    ++ "]20;"

/-- `self.close_protocol` after `__init__`. -/
def urxvtCloseProtocol (env : UrxvtEnv) : String :=
  if env.termMultiplexer then "\x07" ++ "\x1b" ++ "\\" else "\x07"

/-- `_get_sizes`: whole terminal when the pager is visible, else the
preview column's share of `column_ratios` in percent. -/
def urxvtGetSizes (env : UrxvtEnv) : Option (Int × Int) :=
  if env.pagerVisible then some (100, 100)
  else
    match env.columnRatios.getLast? with
    | none => none
    | some preview => some (Int.tdiv (100 * preview) env.columnRatios.sum, 100)

/-- `_get_offsets`: centered when the pager is visible, else
right-aligned at 2% from the top. -/
def urxvtGetOffsets (env : UrxvtEnv) : Int × Int :=
  if env.pagerVisible then (50, 50) else (100, 2)

/-- `URXVTImageDisplayer.draw(path, start_x, start_y, width, height)`:
the bytes written to stdout (`none` when `_get_sizes` raises). The four
cell-coordinate arguments are received but ignored by the source. -/
def urxvtDraw (env : UrxvtEnv) (path : String)
    (_startX _startY _width _height : Int) : Option String :=
  match urxvtGetSizes env with
  | none => none
  | some (pctWidth, pctHeight) =>
    let (pctX, pctY) := urxvtGetOffsets env
    some (urxvtDisplayProtocol env ++ path ++ ";" ++ toString pctWidth ++ "x"
      ++ toString pctHeight ++ "+" ++ toString pctX ++ "+" ++ toString pctY
      ++ ":op=keep-aspect" ++ urxvtCloseProtocol env)

/-- `URXVTImageDisplayer.clear(start_x, start_y, width, height)`:
the bytes written to stdout. -/
def urxvtClear (env : UrxvtEnv) (_startX _startY _width _height : Int) : String :=
  urxvtDisplayProtocol env ++ ";100x100+1000+1000" ++ urxvtCloseProtocol env

/-- C10: for fixed ambient settings the urxvt backend's output is
independent of the cell-coordinate arguments — two draws of the same
path write identical bytes whatever their coordinates, and clear writes
one fixed constant sequence determined by the ambient settings alone. -/
theorem urxvt_output_coordinate_independent (env : UrxvtEnv) (path : String)
    (x1 y1 w1 h1 x2 y2 w2 h2 : Int) :
    urxvtDraw env path x1 y1 w1 h1 = urxvtDraw env path x2 y2 w2 h2
    ∧ urxvtClear env x1 y1 w1 h1
        = urxvtDisplayProtocol env ++ ";100x100+1000+1000" ++ urxvtCloseProtocol env :=
  ⟨rfl, rfl⟩

end RangerImg
